import Mathlib

/-!
Verification of the rohde-search text pipeline (src/build/scraper.py,
src/build/build_data.py, src/build/clean_data.py).

Python strings are modelled as `List Char`.  `str.lower`/`str.upper` are
modelled on the ASCII range (the tables below), which is what every string
constant in the source uses.
-/

set_option maxHeartbeats 1000000

/-- Python string model: a list of characters. -/
abbrev PyStr := List Char

/-- The characters matched by Python's `str.strip()` and the regex class
`\s` (ASCII range). -/
def isPySpace (c : Char) : Bool :=
  c = ' ' || c = '\t' || c = '\n' || c = '\x0d' || c = '\x0b' || c = '\x0c'

/-- ASCII lowercasing of one character, as done by `str.lower()`. -/
def lowChar (c : Char) : Char :=
  if c = 'A' then 'a' else if c = 'B' then 'b' else if c = 'C' then 'c'
  else if c = 'D' then 'd' else if c = 'E' then 'e' else if c = 'F' then 'f'
  else if c = 'G' then 'g' else if c = 'H' then 'h' else if c = 'I' then 'i'
  else if c = 'J' then 'j' else if c = 'K' then 'k' else if c = 'L' then 'l'
  else if c = 'M' then 'm' else if c = 'N' then 'n' else if c = 'O' then 'o'
  else if c = 'P' then 'p' else if c = 'Q' then 'q' else if c = 'R' then 'r'
  else if c = 'S' then 's' else if c = 'T' then 't' else if c = 'U' then 'u'
  else if c = 'V' then 'v' else if c = 'W' then 'w' else if c = 'X' then 'x'
  else if c = 'Y' then 'y' else if c = 'Z' then 'z' else c

/-- The ASCII lower-to-upper table of `str.upper()`. -/
def upPairs : List (Char × Char) :=
  [('a','A'), ('b','B'), ('c','C'), ('d','D'), ('e','E'), ('f','F'), ('g','G'),
   ('h','H'), ('i','I'), ('j','J'), ('k','K'), ('l','L'), ('m','M'), ('n','N'),
   ('o','O'), ('p','P'), ('q','Q'), ('r','R'), ('s','S'), ('t','T'), ('u','U'),
   ('v','V'), ('w','W'), ('x','X'), ('y','Y'), ('z','Z')]

/-- ASCII uppercasing of one character, as done by `str.upper()`: look
the character up in the lower-to-upper table, else keep it. -/
def upChar (c : Char) : Char :=
  ((upPairs.find? (fun p => p.1 = c)).map Prod.snd).getD c

/-- `str.lower()`. -/
def pyLower (s : PyStr) : PyStr := s.map lowChar

/-- `str.upper()`. -/
def pyUpper (s : PyStr) : PyStr := s.map upChar

/-- Drop a maximal trailing run of characters satisfying `p`. -/
def dropTrail (p : Char → Bool) (s : PyStr) : PyStr :=
  (s.reverse.dropWhile p).reverse

/-- `str.strip()`: remove leading and trailing whitespace. -/
def pyStrip (s : PyStr) : PyStr := dropTrail isPySpace (s.dropWhile isPySpace)

/-- Does `s` start with `pre`? -/
def listStartsWith : PyStr → PyStr → Bool
  | _, [] => true
  | [], _ :: _ => false
  | a :: as, b :: bs => a = b && listStartsWith as bs

/-- Does `s` end with `suf`? -/
def listEndsWith (s suf : PyStr) : Bool := listStartsWith s.reverse suf.reverse

/-- Python's substring test `needle in hay`. -/
def containsSub (hay needle : PyStr) : Bool :=
  match hay with
  | [] => needle.isEmpty
  | _ :: t => listStartsWith hay needle || containsSub t needle

/-- `any(n in hay for n in needles)`. -/
def anyContains (hay : PyStr) (needles : List PyStr) : Bool :=
  needles.any (containsSub hay)

/-- Regex word character (`\w`, ASCII). -/
def isWordChar (c : Char) : Bool :=
  ('a' ≤ c && c ≤ 'z') || ('A' ≤ c && c ≤ 'Z') || ('0' ≤ c && c ≤ '9') || c = '_'

/-- A word boundary next to an optional neighbouring character. -/
def boundaryOk : Option Char → Bool
  | none => true
  | some c => !isWordChar c

/-- Does `w` occur at the head of `s` followed by a word boundary? -/
def wordAtHead (w s : PyStr) : Bool :=
  listStartsWith s w && boundaryOk ((s.drop w.length).head?)

/-- Helper for `containsWord`: `prev` is the character just before `s`. -/
def containsWordAux (w : PyStr) (prev : Option Char) : PyStr → Bool
  | [] => false
  | c :: t => (boundaryOk prev && wordAtHead w (c :: t)) || containsWordAux w (some c) t

/-- `re.search(r'\b<w>\b', s)` for a literal word `w` made of word characters. -/
def containsWord (w s : PyStr) : Bool := containsWordAux w none s

/-- Python's `s.split(sep)` for a one-character separator. -/
def pySplit (sep : Char) : PyStr → List PyStr
  | [] => [[]]
  | c :: t =>
    if c = sep then [] :: pySplit sep t
    else
      match pySplit sep t with
      | s :: ss => (c :: s) :: ss
      | [] => [[c]]

/-- `re.search(p ++ '$', s)` as a suffix test: Python's `$` also matches just
before a final newline. -/
def endsWithNL (s pat : PyStr) : Bool :=
  listEndsWith s pat || listEndsWith s (pat ++ ['\n'])

/-- Split at the first occurrence of `sep`: `(before, after)` with the
separator removed; `none` if `sep` does not occur. -/
def splitFirst (sep : Char) : PyStr → Option (PyStr × PyStr)
  | [] => none
  | c :: t =>
    if c = sep then some ([], t)
    else (splitFirst sep t).map (fun p => (c :: p.1, p.2))

/-- The text captured by `,?\s*(.+?)$` from the text `after` the closing
paren in `parse_job_line`'s regex: an optional comma, then greedy
whitespace, then a non-empty non-greedy tail, with regex backtracking
giving back whitespace when nothing would remain.  The embedding treats
the input as one physical line (no newline characters), which is what both
callers pass. -/
def locationGroup (after : PyStr) : Option PyStr :=
  if after = [] then none
  else
    let a2 := match after with
      | ',' :: t => t
      | _ => after
    let a3 := a2.dropWhile isPySpace
    if a3.isEmpty then
      match a2.reverse with
      | x :: _ => some [x]
      | [] => some [',']
    else some a3

/-- `re.sub(r'[,\s]+$', '', s)`. -/
def trimCommaWsEnd (s : PyStr) : PyStr := dropTrail (fun c => c = ',' || isPySpace c) s

/-- One character of the class `[/\s]`. -/
def isSlashWs (c : Char) : Bool := c = '/' || isPySpace c

/-- `re.sub(r'^[/\s]+|[/\s]+$', '', s)`. -/
def trimSlashWs (s : PyStr) : PyStr := dropTrail isSlashWs (s.dropWhile isSlashWs)

/-- The record built by `parse_job_line` (src/build/build_data.py). -/
structure ParsedJob where
  company : PyStr
  industry : PyStr
  stage : PyStr
  location : PyStr
  investors : PyStr
  job_title : PyStr
deriving DecidableEq, Repr

/-- The funding/stage keywords of the details loop. -/
def stageKeywords : List PyStr :=
  ["series".data, "seed".data, "public".data, "early-stage".data,
   "early stage".data, "late-stage".data, "acquired".data]

/-- `any(s in part_lower for s in [...])`: the stage-keyword test of the
details loop. -/
def isStageSeg (p : PyStr) : Bool := stageKeywords.any (containsSub (pyLower p))

/-- `'backed' in part_lower`. -/
def isBackedSeg (p : PyStr) : Bool := containsSub (pyLower p) "backed".data

/-- The classification loop over `details_parts[1:]` (src/build/build_data.py
lines 57-62; src/build/scraper.py lines 176-181 are identical): each
matching segment overwrites the corresponding field. -/
def detailsFold : List PyStr → PyStr × PyStr → PyStr × PyStr
  | [], acc => acc
  | p :: t, (st, inv) =>
    if isStageSeg p then detailsFold t (pyStrip p, inv)
    else if isBackedSeg p then detailsFold t (st, pyStrip p)
    else detailsFold t (st, inv)

/-- `pyStrip` of the last element, or the default for an empty list. -/
def lastStripD : List PyStr → PyStr → PyStr
  | [], d => d
  | p :: t, _ => lastStripD t (pyStrip p)

/-- `parse_job_line` from src/build/build_data.py (lines 19-75).  The
scraper.py variant (lines 138-192) differs only in the minimum length
(15 instead of 10), a markdown-link stripping pre-pass, and two extra
skip words; its details loop and grammar are identical.  The regex
`^([^,]+),\s*([^(]+?)\s*\(([^)]+)\),?\s*(.+?)$` is resolved
deterministically: title up to the first comma, company up to the first
paren, details the first parenthesised group, location the rest. -/
def parseJobLine (line : PyStr) : Option ParsedJob :=
  let l := pyStrip line
  if l = [] || l.length < 10 then none
  else
    match splitFirst ',' l with
    | none => none
    | some (t1, rest1) =>
      if t1 = [] then none
      else
        match splitFirst '(' rest1 with
        | none => none
        | some (beforeParen, rest2) =>
          if beforeParen = [] then none
          else
            match splitFirst ')' rest2 with
            | none => none
            | some (content, after) =>
              if content = [] then none
              else
                match locationGroup after with
                | none => none
                | some g4 =>
                  let job_title := pyStrip t1
                  let company := pyStrip beforeParen
                  let details := pyStrip content
                  let location0 := pyStrip g4
                  if company.length < 2 || company.length > 100 then none
                  else if location0.length > 100 then none
                  else if anyContains (pyLower company)
                      ["subscribe".data, "click here".data, "fill out".data] then none
                  else
                    let parts := (pySplit ',' details).map pyStrip
                    let industry := parts.headD []
                    let si := detailsFold parts.tail ([], [])
                    let company1 := trimCommaWsEnd company
                    let location1 := trimSlashWs location0
                    some { company := company1, industry := pyStrip industry,
                           stage := pyStrip si.1, location := pyStrip location1,
                           investors := pyStrip si.2, job_title := pyStrip job_title }

/-- A raw listing entering `deduplicate_companies`.  `role_category = []`
models Python's `None` (and `''`), both falsy. -/
structure RawListing where
  company : PyStr
  industry : PyStr
  stage : PyStr
  location : PyStr
  investors : PyStr
  edition : Int
  date : PyStr
  role_category : PyStr
deriving DecidableEq, Repr

/-- The canonical per-company record built by `deduplicate_companies`
(src/build/build_data.py lines 114-152; the scraper.py variant additionally
seeds an empty `description` field). -/
structure CompanyRec where
  company : PyStr
  industry : PyStr
  stage : PyStr
  location : PyStr
  investors : PyStr
  editions : List Int
  latest_edition : Int
  latest_date : PyStr
  role_categories : List PyStr
deriving DecidableEq, Repr

/-- The identity key: `c['company'].lower().strip()`. -/
def keyOf (c : RawListing) : PyStr := pyStrip (pyLower c.company)

/-- First sighting of a key: the record created by `deduplicate_companies`. -/
def mkRec (c : RawListing) : CompanyRec :=
  { company := c.company, industry := c.industry, stage := c.stage,
    location := c.location, investors := c.investors,
    editions := [c.edition], latest_edition := c.edition,
    latest_date := c.date,
    role_categories := if c.role_category ≠ [] then [c.role_category] else [] }

/-- Subsequent sighting of an existing key: the in-place update performed
by `deduplicate_companies` (add edition if new; promote and backfill empty
fields only when the new edition is strictly greater; accumulate the role
category). -/
def updateRec (e0 : CompanyRec) (c : RawListing) : CompanyRec :=
  let e1 := if c.edition ∈ e0.editions then e0
            else { e0 with editions := e0.editions ++ [c.edition] }
  let e2 := if c.edition > e1.latest_edition then
              { e1 with
                latest_edition := c.edition
                latest_date := c.date
                industry := if e1.industry = [] ∧ c.industry ≠ [] then c.industry else e1.industry
                stage := if e1.stage = [] ∧ c.stage ≠ [] then c.stage else e1.stage
                location := if e1.location = [] ∧ c.location ≠ [] then c.location else e1.location }
            else e1
  if c.role_category ≠ [] ∧ c.role_category ∉ e2.role_categories then
    { e2 with role_categories := e2.role_categories ++ [c.role_category] }
  else e2

/-- First-match lookup in an insertion-ordered association list (the model
of the Python dict `company_map`). -/
def lookupA {α : Type} : List (PyStr × α) → PyStr → Option α
  | [], _ => none
  | (k', v) :: t, k => if k' = k then some v else lookupA t k

/-- Replace the value bound to the first occurrence of a key. -/
def setA {α : Type} : List (PyStr × α) → PyStr → α → List (PyStr × α)
  | [], _, _ => []
  | (k', v') :: t, k, v => if k' = k then (k', v) :: t else (k', v') :: setA t k v

/-- One iteration of the `for c in companies` loop of
`deduplicate_companies`. -/
def mergeStep (m : List (PyStr × CompanyRec)) (c : RawListing) : List (PyStr × CompanyRec) :=
  match lookupA m (keyOf c) with
  | none => m ++ [(keyOf c, mkRec c)]
  | some e => setA m (keyOf c) (updateRec e c)

/-- The whole merge loop: the identity map after folding a stream of raw
listings, keys in insertion order. -/
def dedupFold (cs : List RawListing) : List (PyStr × CompanyRec) :=
  cs.foldl mergeStep []

/-- Stable insertion keeping `latest_edition` descending (models Python's
stable `list.sort(key=..., reverse=True)` applied to the map's values). -/
def insertByLatest (r : CompanyRec) : List CompanyRec → List CompanyRec
  | [] => [r]
  | x :: t => if x.latest_edition < r.latest_edition then r :: x :: t
              else x :: insertByLatest r t

/-- `deduplicate_companies`: fold the stream into the identity map, then
emit the values sorted by `latest_edition` descending (stable). -/
def deduplicateCompanies (cs : List RawListing) : List CompanyRec :=
  ((dedupFold cs).map Prod.snd).foldl (fun acc r => insertByLatest r acc) []

/-- The ordered reject-pattern scan of `is_valid_location`
(src/build/clean_data.py lines 93-139), evaluated on the lowercased
location.  Anchors `^`/`$` become here head/tail tests (`endsWithNL` keeps
Python's `$`-before-final-newline behaviour); everything else is a plain
substring search. -/
def locGarbage (ll : PyStr) : Bool :=
  listStartsWith ll ".".data ||
  listStartsWith ll "@".data ||
  listStartsWith ll "(".data ||
  endsWithNL ll "(".data ||
  listStartsWith ll "it was".data ||
  listStartsWith ll "she is".data ||
  listStartsWith ll "he is".data ||
  containsSub ll "capital".data ||
  containsSub ll "ventures".data ||
  containsSub ll "partners".data ||
  containsSub ll "collective".data ||
  endsWithNL ll "group".data ||
  endsWithNL ll "next".data ||
  containsSub ll "fund".data ||
  containsSub ll "respond to".data ||
  containsSub ll "check out".data ||
  listStartsWith ll "and ".data ||
  listStartsWith ll "or ".data ||
  containsSub ll "ceo ".data ||
  containsSub ll "founder".data ||
  containsSub ll "announcement".data ||
  containsSub ll "how it works".data ||
  containsSub ll "jobs!".data ||
  containsSub ll "for grabs".data ||
  anyContains ll ["series a".data, "series b".data, "series c".data,
                  "series d".data, "series e".data, "series f".data] ||
  endsWithNL ll "stage".data ||
  containsSub ll "seed".data ||
  containsSub ll "acquired".data ||
  containsSub ll "public)".data ||
  containsSub ll "healthcare)".data ||
  containsSub ll "fintech)".data ||
  containsSub ll "saas)".data ||
  containsSub ll "edtech)".data ||
  containsSub ll "language learning".data ||
  containsSub ll "contract)".data ||
  containsSub ll "manager".data ||
  containsSub ll "associate".data ||
  containsSub ll "relations".data ||
  containsSub ll "holdings".data ||
  containsSub ll "institute".data ||
  containsSub ll "company".data

/-- The 2-letter allow-list of `is_valid_location`. -/
def twoLetterAllow : List PyStr :=
  ["SF".data, "LA".data, "NY".data, "DC".data, "UK".data]

/-- `is_valid_location` from src/build/clean_data.py (lines 85-149). -/
def isValidLocation (location : PyStr) : Bool :=
  if location.length < 2 then false
  else if locGarbage (pyLower location) then false
  else if location.length > 60 then false
  else if location.length = 2 ∧ pyUpper location ∉ twoLetterAllow then false
  else true

/-- Case-insensitive "starts with". -/
def ciStartsWith : PyStr → PyStr → Bool
  | _, [] => true
  | [], _ :: _ => false
  | a :: as, b :: bs => lowChar a = lowChar b && ciStartsWith as bs

/-- Worker for `capFix`: `wh :: wt` is the non-empty replacement word,
`prev` the character just before the current position in the original
string. -/
def capFixAux (wh : Char) (wt : PyStr) (prev : Option Char) : PyStr → PyStr
  | [] => []
  | c :: t =>
    let w := wh :: wt
    let s := c :: t
    if boundaryOk prev && ciStartsWith s w && boundaryOk ((s.drop w.length).head?) then
      w ++ capFixAux wh wt ((s.take w.length).getLast?) (s.drop w.length)
    else c :: capFixAux wh wt (some c) t
termination_by l => l.length
decreasing_by
  all_goals simp [List.length_drop]
  all_goals omega

/-- `re.sub(r'\b<w>\b', w, s, flags=re.IGNORECASE)`: replace every
case-insensitive word occurrence of `w` with `w` in canonical casing
(the acronym fixups at the end of `normalize_industry`). -/
def capFix (w : PyStr) (s : PyStr) : PyStr :=
  match w with
  | [] => s
  | wh :: wt => capFixAux wh wt none s

def healthcareTerms : List PyStr :=
  (["health", "medtech", "medical", "clinical", "behavioral health", "wellness",
    "fitness", "hospital", "pharma", "therapeutic", "biopharma",
    "drug development"] : List String).map String.data

def fintechTerms : List PyStr :=
  (["fintech", "financial", "banking", "payment", "wealth", "crypto", "bitcoin",
    "trading", "investing"] : List String).map String.data

def biotechTerms : List PyStr :=
  (["biotech", "bio tech", "life science", "bioinformatics", "genetic",
    "biopharm"] : List String).map String.data

def logisticsTerms : List PyStr :=
  (["logistic", "supply chain", "shipping", "delivery", "fleet"] : List String).map String.data

def hrTerms : List PyStr :=
  (["hrtech", "hr tech", "recruiting", "recruitment", "talent",
    "human resources", "hiring", "staffing"] : List String).map String.data

def climateTerms : List PyStr :=
  (["climate", "clean energy", "cleantech", "greentech", "renewable", "solar",
    "sustainable energy"] : List String).map String.data

def foodTerms : List PyStr :=
  (["food", "restaurant", "beverage", "meal", "catering", "grocery"] : List String).map String.data

def defenseTerms : List PyStr :=
  (["defense", "aerospace", "space", "satellite"] : List String).map String.data

def travelTerms : List PyStr :=
  (["travel", "hospitality", "hotel", "ride", "mobility",
    "transportation"] : List String).map String.data

def mediaTerms : List PyStr :=
  (["media", "entertainment", "video", "streaming", "content", "publishing",
    "podcast"] : List String).map String.data

def devToolsTerms : List PyStr :=
  (["developer", "devtools", "dev tools", "devops", "api"] : List String).map String.data

def infraTerms : List PyStr :=
  (["infrastructure", "cloud", "data center", "datacenter",
    "edge computing"] : List String).map String.data

def hardwareTerms : List PyStr :=
  (["hardware", "iot", "semiconductor", "electronics", "sensor",
    "wearable"] : List String).map String.data

/-- The exact-match consolidation table of `normalize_industry`
(src/build/clean_data.py lines 318-484), in source order; an empty second
component nulls the value out. -/
def industryMappings : List (PyStr × PyStr) :=
  ([("web3", "Web3"), ("web 3", "Web3"), ("blockchain", "Web3"),
    ("blockchains", "Web3"), ("crypto", "Web3"), ("cryptocurrency", "Web3"),
    ("nft", "Web3"), ("dao", "Web3"),
    ("saas", "SaaS"), ("software", "SaaS"), ("b2b saas", "SaaS"),
    ("enterprise saas", "SaaS"), ("enterprise software", "SaaS"),
    ("software development", "Developer Tools"),
    ("data", "Data"), ("analytics", "Data"), ("big data", "Data"),
    ("data analytics", "Data"), ("business intelligence", "Data"),
    ("infrastructure", "Infrastructure"),
    ("devtools", "Developer Tools"), ("developer tools", "Developer Tools"),
    ("dev tools", "Developer Tools"), ("api", "Developer Tools"),
    ("apis", "Developer Tools"),
    ("robotics", "Robotics"),
    ("hardware", "Hardware"), ("iot", "Hardware"), ("semiconductor", "Hardware"),
    ("semiconductors", "Hardware"),
    ("climate", "Climate"), ("climate tech", "Climate"),
    ("climatetech", "Climate"), ("cleantech", "Climate"),
    ("greentech", "Climate"), ("sustainability", "Climate"),
    ("energy", "Energy"),
    ("marketplace", "E-commerce"), ("marketplaces", "E-commerce"),
    ("consumer", "Consumer"), ("consumer goods", "Consumer"), ("cpg", "Consumer"),
    ("social", "Social Media"), ("social media", "Social Media"),
    ("social network", "Social Media"),
    ("media", "Media"), ("digital media", "Media"), ("entertainment", "Media"),
    ("gaming", "Gaming"), ("games", "Gaming"), ("esports", "Gaming"),
    ("e-sports", "Gaming"),
    ("sports", "Sports"),
    ("food", "Food & Beverage"), ("food tech", "Food & Beverage"),
    ("foodtech", "Food & Beverage"),
    ("agriculture", "Agriculture"), ("agtech", "Agriculture"),
    ("construction", "Manufacturing"), ("manufacturing", "Manufacturing"),
    ("automotive", "Automotive"), ("electric vehicle", "Automotive"),
    ("electric vehicles", "Automotive"), ("ev", "Automotive"),
    ("transportation", "Travel"), ("mobility", "Travel"), ("travel", "Travel"),
    ("hospitality", "Travel"),
    ("government", "Government"), ("govtech", "Government"),
    ("nonprofit", "Nonprofit"), ("non-profit", "Nonprofit"),
    ("venture capital", "VC"), ("vc", "VC"), ("venture fund", "VC"),
    ("investing", "VC"), ("investments", "VC"),
    ("pet", "Consumer"), ("pets", "Consumer"), ("pet care", "Consumer"),
    ("fashion", "Consumer"), ("apparel", "Consumer"), ("beauty", "Consumer"),
    ("wellness", "Healthcare"), ("fitness", "Healthcare"),
    ("mental health", "Mental Health"),
    ("dental", "Healthcare"), ("veterinary", "Healthcare"),
    ("legal", "Legal"), ("legaltech", "Legal"),
    ("sales", "SaaS"), ("crm", "SaaS"),
    ("database", "Data"), ("databases", "Data"),
    ("deeptech", "Hardware"), ("deep tech", "Hardware"),
    ("quantum computing", "Quantum Computing"), ("quantum", "Quantum Computing"),
    ("design", "Consumer"),
    ("community", "Social Media"), ("communities", "Social Media"),
    ("messaging", "Social Media"), ("dating", "Social Media"),
    ("creator economy", "Media"),
    ("enterprise", "SaaS"), ("b2b", "SaaS"),
    ("consulting", "Services"), ("agency", "Services"), ("services", "Services"),
    ("operations", "SaaS"), ("compliance", "SaaS"), ("procurement", "SaaS"),
    ("accounting", "SaaS"),
    ("home services", "Services"), ("home", "Consumer"),
    ("internet", "SaaS"), ("platform", "SaaS"), ("tech", "SaaS"),
    ("technology", "SaaS"), ("information technology", "SaaS"),
    ("it services", "SaaS"),
    ("voice", "AI"), ("speech", "AI"),
    ("vr", "Hardware"), ("ar", "Hardware"), ("augmented reality", "Hardware"),
    ("virtual reality", "Hardware"), ("ar/vr", "Hardware"), ("vr/xr", "Hardware"),
    ("mobile", "SaaS"), ("mobile apps", "SaaS"), ("apps", "SaaS"),
    ("website", "SaaS"), ("websites", "SaaS"),
    ("seed", ""), ("pre-seed", ""), ("pre seed", ""), ("seed stage", ""),
    ("seed-stage", ""),
    ("series a", ""), ("series b", ""), ("series c", ""), ("series d", ""),
    ("series e", ""), ("series f", ""), ("series g", ""), ("series h", ""),
    ("early-stage", ""), ("early stage", ""), ("late-stage", ""),
    ("late stage", ""), ("later-stage", ""),
    ("yc", ""), ("y combinator", ""), ("public", ""), ("acquired", ""),
    ("pe-backed", ""), ("startup studio", ""), ("accelerator", ""),
    ("incubator", ""), ("holding company", ""), ("remote", "")] :
    List (String × String)).map (fun p => (p.1.data, p.2.data))

/-- `normalize_industry` from src/build/clean_data.py (lines 175-498):
the ordered family rules, then the exact-match table, then the
acronym-capitalisation pass-through.  `none` models the Python `None`
returned when the table nulls the value out. -/
def normalizeIndustry (industry0 : PyStr) : Option PyStr :=
  if industry0 = [] then some industry0
  else
    let industry := pyStrip industry0
    let il := pyLower industry
    if anyContains il healthcareTerms then
      if containsSub il "mental health".data then some "Mental Health".data
      else if containsSub il "dental".data || containsSub il "dentis".data then
        some "Healthcare".data
      else if containsSub il "veterinary".data || containsSub il "vet ".data then
        some "Healthcare".data
      else some "Healthcare".data
    else if containsWord "ai".data il || containsSub il "artificial intelligence".data ||
        containsSub il "machine learning".data || containsSub il "deep learning".data ||
        containsSub il "llm".data || containsWord "ml".data il ||
        containsSub il "computer vision".data || containsSub il "nlp".data then
      if containsSub il "robot".data then some "Robotics".data else some "AI".data
    else if anyContains il fintechTerms then
      if containsSub il "crypto".data || containsSub il "blockchain".data ||
          containsSub il "web3".data || containsSub il "web 3".data then
        some "Web3".data
      else some "Fintech".data
    else if anyContains il biotechTerms then some "Biotech".data
    else if containsSub il "commerce".data || containsSub il "retail".data ||
        containsSub il "marketplace".data then some "E-commerce".data
    else if containsSub il "edtech".data || containsSub il "education".data ||
        containsSub il "e-learning".data || containsSub il "learning".data then
      some "Edtech".data
    else if containsSub il "insur".data then some "Insurtech".data
    else if containsSub il "security".data || containsSub il "cybersec".data ||
        il = "cyber".data then some "Cybersecurity".data
    else if containsSub il "marketing".data || containsSub il "martech".data ||
        containsSub il "adtech".data || containsSub il "advertising".data then
      some "Marketing".data
    else if anyContains il logisticsTerms then some "Logistics".data
    else if containsSub il "real estate".data || containsSub il "proptech".data ||
        containsSub il "property".data then some "Real Estate".data
    else if anyContains il hrTerms then some "HRTech".data
    else if containsSub il "legal".data || containsSub il "legaltech".data ||
        containsSub il "law".data then some "Legal".data
    else if anyContains il climateTerms then some "Climate".data
    else if containsSub il "energy".data && !containsSub il "renewable".data &&
        !containsSub il "clean".data then some "Energy".data
    else if anyContains il foodTerms then some "Food & Beverage".data
    else if anyContains il defenseTerms then
      if containsSub il "space".data || containsSub il "satellite".data ||
          containsSub il "aerospace".data then some "Aerospace".data
      else some "Defense".data
    else if anyContains il travelTerms then some "Travel".data
    else if anyContains il mediaTerms then
      if containsSub il "gaming".data || containsSub il "game".data ||
          containsSub il "esport".data then some "Gaming".data
      else if containsSub il "social".data then some "Social Media".data
      else some "Media".data
    else if anyContains il devToolsTerms then some "Developer Tools".data
    else if anyContains il infraTerms then some "Infrastructure".data
    else if anyContains il hardwareTerms then some "Hardware".data
    else if containsSub il "automat".data || containsSub il "robot".data ||
        containsSub il "autonomous".data || containsSub il "drone".data then
      some "Robotics".data
    else if containsSub il "manufacturing".data || containsSub il "construction".data ||
        containsSub il "industrial".data then some "Manufacturing".data
    else if containsSub il "government".data || containsSub il "govtech".data ||
        containsSub il "civic".data || il = "public".data then some "Government".data
    else if containsSub il "nonprofit".data || containsSub il "non-profit".data ||
        containsSub il "philanthrop".data || containsSub il "charity".data then
      some "Nonprofit".data
    else if containsSub il "agri".data || containsSub il "agtech".data ||
        containsSub il "farm".data then some "Agriculture".data
    else if containsSub il "future of work".data || containsSub il "collaboration".data ||
        containsSub il "productivity".data || containsSub il "workflow".data then
      some "Productivity".data
    else if containsSub il "quantum".data then some "Quantum Computing".data
    else
      match lookupA industryMappings il with
      | some v => if v = [] then none else some v
      | none =>
        some (capFix "B2C".data (capFix "B2B".data (capFix "Web3".data
          (capFix "SaaS".data (capFix "AI".data industry)))))

/-- Worker for `collapseWs`: `inRun` records whether the previous
character was whitespace (already emitted as a single space). -/
def collapseAux : Bool → PyStr → PyStr
  | _, [] => []
  | inRun, c :: t =>
    if isPySpace c then
      if inRun then collapseAux true t else ' ' :: collapseAux true t
    else c :: collapseAux false t

/-- `re.sub(r'\s+', ' ', s)`: collapse every whitespace run to one space. -/
def collapseWs (s : PyStr) : PyStr := collapseAux false s

/-- `re.sub(r'\.$', '', s)`: drop a single trailing period (inputs here
contain no newline: whitespace was collapsed first). -/
def dropTrailingDot (s : PyStr) : PyStr :=
  match s.reverse with
  | '.' :: r => r.reverse
  | _ => s

/-- `re.sub(r'\s*,\s*$', '', s)`: drop one trailing comma together with
the whitespace around it. -/
def dropTrailingComma (s : PyStr) : PyStr :=
  match s.reverse.dropWhile isPySpace with
  | ',' :: r2 => (r2.dropWhile isPySpace).reverse
  | _ => s

/-- Worker for `removeParens`, structurally recursive on a fuel that
bounds the input length (each step strictly shortens the list, so the
zero-fuel row is never reached from `removeParens`). -/
def removeParensF : Nat → PyStr → PyStr
  | 0, s => s
  | _ + 1, [] => []
  | n + 1, c :: t =>
    if c = '(' ∧ t.contains ')' then
      removeParensF n ((t.dropWhile (· ≠ ')')).tail)
    else c :: removeParensF n t

/-- `re.sub(r'\(.*?\)', '', s)`: drop each `(`-to-next-`)` group; a `(`
with no later `)` is kept. -/
def removeParens (s : PyStr) : PyStr := removeParensF s.length s

/-- The metro-area and city gazetteer of `normalize_location`
(src/build/clean_data.py lines 541-671), as the ordered alias-lists /
canonical-tag table realised by the source's `elif` chain. -/
def gazetteer : List (List PyStr × PyStr) :=
  ([(["sf", "san francisco", "sf bay area", "bay area", "palo alto", "menlo park",
      "mountain view", "san jose", "san mateo", "redwood city", "oakland",
      "sunnyvale", "santa clara", "cupertino", "fremont", "burlingame",
      "san bruno", "san carlos", "foster city", "daly city", "millbrae",
      "berkeley", "emeryville", "alameda", "hayward", "san leandro",
      "milpitas", "santa cruz", "sausalito", "scotts valley", "pleasanton",
      "los altos"], "SF"),
    (["ny", "nyc", "new york", "new york city", "brooklyn", "manhattan",
      "queens", "jersey city", "hoboken", "williamsburg", "secaucus"], "NYC"),
    (["la", "los angeles", "santa monica", "culver city", "pasadena",
      "venice", "playa vista", "long beach", "glendale", "burbank",
      "beverly hills", "west hollywood", "el segundo", "torrance",
      "sherman oaks", "costa mesa", "irvine"], "Los Angeles"),
    (["boston", "cambridge", "somerville", "waltham", "needham",
      "newton", "quincy", "natick", "woburn"], "Boston"),
    (["dc", "washington", "washington dc", "mclean", "bethesda",
      "arlington", "alexandria"], "DC"),
    (["denver", "boulder", "broomfield", "arvada", "englewood"], "Denver"),
    (["seattle", "bellevue", "redmond", "kirkland", "everett", "woodinville"], "Seattle"),
    (["miami", "fort lauderdale", "boca raton", "aventura", "west palm beach",
      "plantation"], "Miami"),
    (["chicago", "evanston", "oak park"], "Chicago"),
    (["austin"], "Austin"),
    (["atlanta", "marietta", "norcross"], "Atlanta"),
    (["philadelphia", "philly"], "Philadelphia"),
    (["portland"], "Portland"),
    (["phoenix", "scottsdale", "tempe"], "Phoenix"),
    (["san diego", "carlsbad"], "San Diego"),
    (["dallas", "plano", "coppell"], "Dallas"),
    (["houston"], "Houston"),
    (["nashville"], "Nashville"),
    (["salt lake city", "lehi", "provo", "south jordan", "lindon"], "Salt Lake City"),
    (["raleigh", "durham", "morrisville"], "Raleigh"),
    (["detroit", "novi", "troy"], "Detroit"),
    (["minneapolis"], "Minneapolis"),
    (["pittsburgh"], "Pittsburgh"),
    (["columbus"], "Columbus"),
    (["charlotte"], "Charlotte"),
    (["baltimore"], "Baltimore"),
    (["milwaukee"], "Milwaukee"),
    (["st. louis", "st louis"], "St. Louis"),
    (["richmond"], "Richmond"),
    (["omaha"], "Omaha"),
    (["reno", "sparks"], "Reno"),
    (["toronto"], "Toronto"),
    (["montreal"], "Montreal"),
    (["vancouver"], "Vancouver"),
    (["calgary"], "Calgary"),
    (["ottawa"], "Ottawa"),
    (["canada", "canada)"], "Canada"),
    (["london"], "London"),
    (["paris"], "Paris"),
    (["berlin"], "Berlin"),
    (["singapore"], "Singapore"),
    (["stockholm"], "Stockholm"),
    (["dublin", "ireland"], "Dublin"),
    (["uk", "united kingdom)"], "UK"),
    (["australia"], "Australia")] : List (List String × String)).map
    (fun p => (p.1.map String.data, p.2.data))

/-- The per-part classifier of `normalize_location`: the remote-equivalence
rules, the `hybrid` drop, then the gazetteer `elif` chain; `none` means the
part is dropped.  The argument is the already-cleaned lowercased part. -/
def classifyPart (pl : PyStr) : Option PyStr :=
  if containsSub pl "remote".data || containsSub pl "anywhere".data ||
      containsSub pl "global".data || containsSub pl "worldwide".data ||
      containsSub pl "various".data then some "Remote".data
  else if containsSub pl "hybrid".data then none
  else if containsSub pl "us states".data || containsSub pl "multiple states".data ||
      pl = "united states".data then some "Remote".data
  else if containsSub pl "east coast".data || containsSub pl "west coast".data then
    some "Remote".data
  else
    match gazetteer.find? (fun e => e.1.contains pl) with
    | some e => some e.2
    | none => none

/-- Per-part cleanup and classification (the loop body of
`normalize_location`): text after the first comma dropped, parenthesised
content removed, whitespace collapsed, empty or overlong parts and
gazetteer-unknown parts dropped. -/
def processPart (part : PyStr) : Option PyStr :=
  let p1 := pyStrip (part.takeWhile (· ≠ ','))
  let p2 := pyStrip (removeParens p1)
  let p3 := pyStrip (collapseWs p2)
  if p3 = [] ∨ p3.length > 30 then none
  else classifyPart (pyLower p3)

/-- The order-preserving dedup at the end of `normalize_location` (the
`seen` set plus append loop; empty parts are skipped by the
`if part and part not in seen` guard). -/
def uniqueParts : List PyStr → List PyStr → List PyStr
  | [], _ => []
  | p :: t, seen =>
    if p ≠ [] ∧ p ∉ seen then p :: uniqueParts t (p :: seen)
    else uniqueParts t seen

/-- `sep.join(parts)`. -/
def joinSep (sep : PyStr) : List PyStr → PyStr
  | [] => []
  | [x] => x
  | x :: y :: xs => x ++ sep ++ joinSep sep (y :: xs)

/-- `normalize_location` from src/build/clean_data.py (lines 500-684). -/
def normalizeLocation (location0 : PyStr) : PyStr :=
  if location0 = [] then location0
  else
    let l1 := pyStrip location0
    let l2 := collapseWs l1
    let l3 := trimSlashWs l2
    let l4 := dropTrailingDot l3
    let l5 := dropTrailingComma l4
    let parts := (pySplit '/' l5).map pyStrip
    let normalized := parts.filterMap processPart
    let unique := uniqueParts normalized []
    if unique = [] then "Remote".data else joinSep " / ".data unique

/-- All canonical place tags `normalize_location` can emit: `"Remote"`
plus the gazetteer's canonical hub tags. -/
def locationTags : List PyStr := "Remote".data :: gazetteer.map Prod.snd

/-!  Concrete inputs used by witnesses and counterexamples. -/

/-- A stored record for "Acme" with `latest_edition = 5`. -/
def wRec : CompanyRec :=
  { company := "Acme".data, industry := "Tech".data, stage := [],
    location := "SF".data, investors := [], editions := [5],
    latest_edition := 5, latest_date := "Jan 1, 2024".data,
    role_categories := [] }

/-- A later sighting of "Acme" in the same edition 5 with different
field values. -/
def wListing : RawListing :=
  { company := "Acme".data, industry := "Health".data, stage := "Seed".data,
    location := "NYC".data, investors := "a16z-backed".data, edition := 5,
    date := "Feb 2, 2024".data, role_category := "VC".data }

/-- A first same-edition sighting of "Acme" carrying industry "X". -/
def cexA : RawListing :=
  { company := "Acme".data, industry := "X".data, stage := [],
    location := "SF".data, investors := [], edition := 1, date := [],
    role_category := [] }

/-- A second same-edition sighting of "Acme" carrying industry "Y". -/
def cexB : RawListing :=
  { company := "Acme".data, industry := "Y".data, stage := [],
    location := "SF".data, investors := [], edition := 1, date := [],
    role_category := [] }

/-- A listing with an empty company name and a non-positive edition. -/
def cexEmpty : RawListing :=
  { company := [], industry := "Tech".data, stage := [],
    location := "SF".data, investors := [], edition := 0, date := [],
    role_category := [] }

/-- Whitespace other than a plain space (a run containing one is changed
by `collapseWs`). -/
def isBadWs (c : Char) : Bool := isPySpace c && c ≠ ' '

/-- Is the first character whitespace? -/
def headIsWs : PyStr → Bool
  | [] => false
  | c :: _ => isPySpace c

/-- Is the last character whitespace? -/
def lastIsWs (s : PyStr) : Bool := headIsWs s.reverse

/-- No non-space whitespace and no two adjacent whitespace characters:
exactly the strings `collapseWs` leaves unchanged. -/
def noWsRun : PyStr → Bool
  | [] => true
  | [c] => !isBadWs c
  | c :: d :: t => !isBadWs c && !(isPySpace c && isPySpace d) && noWsRun (d :: t)

/-- The last character is not whitespace, a period, a comma or a slash. -/
def lastOk (t : PyStr) : Bool :=
  match t.reverse with
  | [] => false
  | c :: _ => !isPySpace c && c ≠ '.' && c ≠ ',' && c ≠ '/'

/-- Well-formedness of a canonical place tag, enough for `" / "`-joins of
tags to pass `normalize_location`'s pre-cleanup unchanged. -/
def tagOk (t : PyStr) : Bool :=
  !t.isEmpty && noWsRun t && !headIsWs t && lastOk t && !t.contains '/'

/-- The canonical industry taxonomy tags: every family-rule output and
every non-empty value of the exact-match table of `normalize_industry`. -/
def canonicalIndustryTags : List PyStr :=
  (["Healthcare", "Mental Health", "AI", "Robotics", "Fintech", "Web3",
    "Biotech", "E-commerce", "Edtech", "Insurtech", "Cybersecurity",
    "Marketing", "Logistics", "Real Estate", "HRTech", "Legal", "Climate",
    "Energy", "Food & Beverage", "Aerospace", "Defense", "Travel", "Gaming",
    "Social Media", "Media", "Developer Tools", "Infrastructure", "Hardware",
    "Manufacturing", "Government", "Nonprofit", "Agriculture", "Productivity",
    "Quantum Computing", "SaaS", "Data", "Consumer", "Sports", "Automotive",
    "VC", "Services"] : List String).map String.data

/-!  Lemmas about the details-segment loop. -/

theorem detailsFold_fst (segs : List PyStr) : ∀ st inv,
    (detailsFold segs (st, inv)).1 = lastStripD (segs.filter isStageSeg) st := by
  induction segs with
  | nil => intro st inv; rfl
  | cons p t ih =>
    intro st inv
    by_cases hp : isStageSeg p <;> by_cases hb : isBackedSeg p <;>
      simp [detailsFold, List.filter_cons, hp, hb, lastStripD, ih]

theorem detailsFold_snd (segs : List PyStr) : ∀ st inv,
    (detailsFold segs (st, inv)).2 =
      lastStripD (segs.filter (fun p => !isStageSeg p && isBackedSeg p)) inv := by
  induction segs with
  | nil => intro st inv; rfl
  | cons p t ih =>
    intro st inv
    by_cases hp : isStageSeg p <;> by_cases hb : isBackedSeg p <;>
      simp [detailsFold, List.filter_cons, hp, hb, lastStripD, ih]

/-- C1 counterexample: on "PM, Acme (Tech, Series A, Seed round), SF" the
details segments after the first are "Series A" and "Seed round", both
matching a funding/stage keyword; `parse_job_line` returns stage
"Seed round" — the last match — not "Series A", so the first matching
segment does not win and later matching segments are not ignored. -/
theorem claim_C1_counterexample :
    (parseJobLine "PM, Acme (Tech, Series A, Seed round), SF".data).map ParsedJob.stage
      = some "Seed round".data ∧
    isStageSeg "Series A".data = true ∧ isStageSeg "Seed round".data = true ∧
    "Seed round".data ≠ "Series A".data :=
  ⟨by decide, by decide, by decide, by decide⟩

/-- C1 (amended): in the details loop of `parse_job_line` the LAST
matching segment wins per category: the stage accumulator ends as the
stripped last stage-keyword segment, and the investors accumulator as the
stripped last "backed" segment among those not matching a stage keyword,
each defaulting to its initial value when no segment matches. -/
theorem claim_C1_amended (segs : List PyStr) (st inv : PyStr) :
    (detailsFold segs (st, inv)).1 = lastStripD (segs.filter isStageSeg) st ∧
    (detailsFold segs (st, inv)).2 =
      lastStripD (segs.filter (fun p => !isStageSeg p && isBackedSeg p)) inv :=
  ⟨detailsFold_fst segs st inv, detailsFold_snd segs st inv⟩

/-- C9: a details segment matching a funding/stage keyword is classified
as stage even when it also contains "backed": the loop step overwrites
the stage accumulator with the stripped segment and leaves the investors
accumulator untouched, so the investors field is never set from such a
segment. -/
theorem claim_C9 (p : PyStr) (segs : List PyStr) (st inv : PyStr)
    (h : isStageSeg p = true) :
    detailsFold (p :: segs) (st, inv) = detailsFold segs (pyStrip p, inv) := by
  simp [detailsFold, h]

/-- Witness for C9 at the segment "seed backed", which contains both a
stage keyword and "backed": it sets stage, not investors. -/
theorem claim_C9_witness :
    isStageSeg "seed backed".data = true ∧ isBackedSeg "seed backed".data = true ∧
    detailsFold ["seed backed".data] ([], []) = ("seed backed".data, []) := by
  refine ⟨by decide, by decide, ?_⟩
  rw [claim_C9 _ _ _ _ (by decide)]
  decide

/-- C6 (frame): a sighting whose edition is not strictly greater than the
stored `latest_edition` changes at most `editions` and `role_categories`:
company, industry, stage, location, investors, latest_edition and
latest_date are untouched by `updateRec`. -/
theorem claim_C6 (e : CompanyRec) (c : RawListing)
    (h : c.edition ≤ e.latest_edition) :
    (updateRec e c).company = e.company ∧
    (updateRec e c).industry = e.industry ∧
    (updateRec e c).stage = e.stage ∧
    (updateRec e c).location = e.location ∧
    (updateRec e c).investors = e.investors ∧
    (updateRec e c).latest_edition = e.latest_edition ∧
    (updateRec e c).latest_date = e.latest_date := by
  have hgt : ¬ c.edition > e.latest_edition := not_lt.mpr h
  unfold updateRec
  by_cases h1 : c.edition ∈ e.editions <;>
    simp only [h1, if_pos, if_neg, not_false_iff, ite_true, ite_false, if_true, if_false] <;>
    simp only [if_neg hgt] <;>
    split <;> simp

/-- Witness for C6: the same-edition sighting `wListing` (edition 5) of
the stored record `wRec` (latest_edition 5) leaves all seven fields
unchanged. -/
theorem claim_C6_witness :
    (updateRec wRec wListing).company = wRec.company ∧
    (updateRec wRec wListing).industry = wRec.industry ∧
    (updateRec wRec wListing).stage = wRec.stage ∧
    (updateRec wRec wListing).location = wRec.location ∧
    (updateRec wRec wListing).investors = wRec.investors ∧
    (updateRec wRec wListing).latest_edition = wRec.latest_edition ∧
    (updateRec wRec wListing).latest_date = wRec.latest_date :=
  claim_C6 wRec wListing (by decide)

/-!  Lemmas about the identity map and the merge fold. -/

/-- The data-model invariant: `latest_edition` is the maximum of
`editions` (a member and an upper bound). -/
def maxInvariant (r : CompanyRec) : Prop :=
  r.latest_edition ∈ r.editions ∧ ∀ x ∈ r.editions, x ≤ r.latest_edition


theorem updateRec_editions (e : CompanyRec) (c : RawListing) :
    (updateRec e c).editions =
      if c.edition ∈ e.editions then e.editions else e.editions ++ [c.edition] := by
  by_cases h1 : c.edition ∈ e.editions <;>
    simp [updateRec, h1, apply_ite CompanyRec.editions]

theorem updateRec_latest (e : CompanyRec) (c : RawListing) :
    (updateRec e c).latest_edition =
      if c.edition > e.latest_edition then c.edition else e.latest_edition := by
  by_cases h1 : c.edition ∈ e.editions <;>
    simp [updateRec, h1, apply_ite CompanyRec.latest_edition]

theorem mkRec_maxInv (c : RawListing) : maxInvariant (mkRec c) := by
  unfold maxInvariant mkRec
  constructor
  · simp
  · intro x hx
    simp at hx
    simp [hx]

theorem updateRec_maxInv (e : CompanyRec) (c : RawListing) (h : maxInvariant e) :
    maxInvariant (updateRec e c) := by
  obtain ⟨hmem, hub⟩ := h
  constructor
  · rw [updateRec_editions, updateRec_latest]
    by_cases h2 : c.edition > e.latest_edition
    · rw [if_pos h2]
      by_cases h1 : c.edition ∈ e.editions
      · rw [if_pos h1]; exact h1
      · rw [if_neg h1]; exact List.mem_append_right _ (by simp)
    · rw [if_neg h2]
      by_cases h1 : c.edition ∈ e.editions
      · rw [if_pos h1]; exact hmem
      · rw [if_neg h1]; exact List.mem_append_left _ hmem
  · intro x hx
    rw [updateRec_editions] at hx
    rw [updateRec_latest]
    by_cases h2 : c.edition > e.latest_edition
    · rw [if_pos h2]
      by_cases h1 : c.edition ∈ e.editions
      · rw [if_pos h1] at hx; exact le_of_lt (lt_of_le_of_lt (hub x hx) h2)
      · rw [if_neg h1] at hx
        rcases List.mem_append.mp hx with hx | hx
        · exact le_of_lt (lt_of_le_of_lt (hub x hx) h2)
        · simp at hx; omega
    · rw [if_neg h2]
      by_cases h1 : c.edition ∈ e.editions
      · rw [if_pos h1] at hx; exact hub x hx
      · rw [if_neg h1] at hx
        rcases List.mem_append.mp hx with hx | hx
        · exact hub x hx
        · simp at hx; omega

theorem lookupA_append_of_some {α : Type} {m : List (PyStr × α)} {k : PyStr} {r : α}
    (h : lookupA m k = some r) (l : List (PyStr × α)) :
    lookupA (m ++ l) k = some r := by
  induction m with
  | nil => simp [lookupA] at h
  | cons p t ih =>
    obtain ⟨k1, v1⟩ := p
    by_cases hk : k1 = k
    · simp [lookupA, hk] at h ⊢; exact h
    · simp [lookupA, hk] at h ⊢; exact ih h

theorem lookupA_append_of_none {α : Type} {m : List (PyStr × α)} {k : PyStr}
    (h : lookupA m k = none) (l : List (PyStr × α)) :
    lookupA (m ++ l) k = lookupA l k := by
  induction m with
  | nil => rfl
  | cons p t ih =>
    obtain ⟨k1, v1⟩ := p
    by_cases hk : k1 = k
    · simp [lookupA, hk] at h
    · simp [lookupA, hk] at h ⊢; exact ih h

theorem lookupA_setA_of_some {α : Type} {m : List (PyStr × α)} {k0 : PyStr} {e : α}
    (h : lookupA m k0 = some e) (v : α) (k : PyStr) :
    lookupA (setA m k0 v) k = if k0 = k then some v else lookupA m k := by
  induction m with
  | nil => simp [lookupA] at h
  | cons p t ih =>
    obtain ⟨k1, v1⟩ := p
    by_cases h1 : k1 = k0
    · subst h1
      by_cases hk : k1 = k
      · subst hk
        simp [setA, lookupA]
      · have hne : ¬ k1 = k := hk
        simp [setA, lookupA, hne]
    · have h2 : lookupA t k0 = some e := by
        have : ¬ k1 = k0 := h1
        simpa [lookupA, this] using h
      by_cases hk : k1 = k
      · subst hk
        have hne : ¬ k0 = k1 := fun hh => h1 hh.symm
        simp [setA, lookupA, h1, hne]
      · simp [setA, lookupA, h1, hk, ih h2]

theorem mergeStep_inv (P : CompanyRec → Prop)
    (hmk : ∀ c, P (mkRec c)) (hup : ∀ e c, P e → P (updateRec e c))
    (m : List (PyStr × CompanyRec)) (c : RawListing)
    (h : ∀ k r, lookupA m k = some r → P r) :
    ∀ k r, lookupA (mergeStep m c) k = some r → P r := by
  intro k r hr
  unfold mergeStep at hr
  split at hr
  · rename_i hm
    cases hl : lookupA m k with
    | some r2 =>
      rw [lookupA_append_of_some hl] at hr
      injection hr with hr2
      subst hr2
      exact h _ _ hl
    | none =>
      rw [lookupA_append_of_none hl] at hr
      by_cases hk : keyOf c = k
      · simp [lookupA, hk] at hr
        rw [← hr]
        exact hmk c
      · simp [lookupA, hk] at hr
  · rename_i e hm
    rw [lookupA_setA_of_some hm] at hr
    split at hr
    · cases hr
      exact hup e c (h (keyOf c) e hm)
    · exact h k r hr

theorem foldl_mergeStep_inv (P : CompanyRec → Prop)
    (hmk : ∀ c, P (mkRec c)) (hup : ∀ e c, P e → P (updateRec e c)) :
    ∀ (cs : List RawListing) (m : List (PyStr × CompanyRec)),
      (∀ k r, lookupA m k = some r → P r) →
      ∀ k r, lookupA (cs.foldl mergeStep m) k = some r → P r := by
  intro cs
  induction cs with
  | nil => intro m h; exact h
  | cons c t ih =>
    intro m h
    exact ih (mergeStep m c) (mergeStep_inv P hmk hup m c h)

/-- C4: for every input stream (hence after every fold step of
`deduplicate_companies`), every record in the identity map has
`latest_edition` equal to the maximum of its `editions` list: it is a
member of the list and an upper bound of it. -/
theorem claim_C4 (cs : List RawListing) (k : PyStr) (r : CompanyRec)
    (h : lookupA (dedupFold cs) k = some r) :
    r.latest_edition ∈ r.editions ∧ ∀ x ∈ r.editions, x ≤ r.latest_edition := by
  refine foldl_mergeStep_inv maxInvariant mkRec_maxInv updateRec_maxInv cs [] ?_ k r h
  intro k r hr
  simp [lookupA] at hr

/-- Witness for C4: folding the single listing `wListing` puts
`mkRec wListing` in the map under the key "acme". -/
theorem claim_C4_witness :
    (mkRec wListing).latest_edition ∈ (mkRec wListing).editions ∧
    ∀ x ∈ (mkRec wListing).editions, x ≤ (mkRec wListing).latest_edition :=
  claim_C4 [wListing] "acme".data (mkRec wListing) (by decide)

/-- The data the merge step's editions/latest-edition components depend
on: the identity key and the edition number of a listing. -/
def keyEd (c : RawListing) : PyStr × Int := (keyOf c, c.edition)

/-- The `(editions, latest_edition)` projection of the identity map at a
key. -/
def projEd (m : List (PyStr × CompanyRec)) (k : PyStr) : Option (List Int × Int) :=
  (lookupA m k).map (fun r => (r.editions, r.latest_edition))

theorem updateRec_projEq {e1 e2 : CompanyRec} {c1 c2 : RawListing}
    (hed : e1.editions = e2.editions) (hl : e1.latest_edition = e2.latest_edition)
    (hc : c1.edition = c2.edition) :
    (updateRec e1 c1).editions = (updateRec e2 c2).editions ∧
    (updateRec e1 c1).latest_edition = (updateRec e2 c2).latest_edition := by
  constructor
  · rw [updateRec_editions, updateRec_editions, hed, hc]
  · rw [updateRec_latest, updateRec_latest, hl, hc]

theorem mergeStep_projEd {m1 m2 : List (PyStr × CompanyRec)} {c1 c2 : RawListing}
    (hk : keyOf c1 = keyOf c2) (he : c1.edition = c2.edition)
    (h : ∀ k, projEd m1 k = projEd m2 k) :
    ∀ k, projEd (mergeStep m1 c1) k = projEd (mergeStep m2 c2) k := by
  intro k
  have hkey := h (keyOf c1)
  unfold projEd at hkey
  unfold mergeStep
  rw [← hk]
  split
  · rename_i hm1
    split
    · rename_i hm2
      unfold projEd
      cases hl1 : lookupA m1 k with
      | some r1 =>
        have h1 := h k
        unfold projEd at h1
        rw [hl1] at h1
        cases hl2 : lookupA m2 k with
        | some r2 =>
          rw [hl2] at h1
          rw [lookupA_append_of_some hl1, lookupA_append_of_some hl2]
          exact h1
        | none => rw [hl2] at h1; simp at h1
      | none =>
        have h1 := h k
        unfold projEd at h1
        rw [hl1] at h1
        cases hl2 : lookupA m2 k with
        | some r2 => rw [hl2] at h1; simp at h1
        | none =>
          rw [lookupA_append_of_none hl1, lookupA_append_of_none hl2]
          by_cases hkk : keyOf c1 = k
          · simp [lookupA, hkk, mkRec, he]
          · simp [lookupA, hkk]
    · rename_i e2 hm2
      rw [hm1, hm2] at hkey
      simp at hkey
  · rename_i e1 hm1
    split
    · rename_i hm2
      rw [hm1, hm2] at hkey
      simp at hkey
    · rename_i e2 hm2
      rw [hm1, hm2] at hkey
      simp at hkey
      unfold projEd
      rw [lookupA_setA_of_some hm1, lookupA_setA_of_some hm2]
      by_cases hkk : keyOf c1 = k
      · rw [if_pos hkk, if_pos hkk]
        have hu := updateRec_projEq hkey.1 hkey.2 he
        simp [hu.1, hu.2]
      · rw [if_neg hkk, if_neg hkk]
        exact h k

theorem foldl_mergeStep_projEd :
    ∀ (cs1 cs2 : List RawListing) (m1 m2 : List (PyStr × CompanyRec)),
      cs1.map keyEd = cs2.map keyEd →
      (∀ k, projEd m1 k = projEd m2 k) →
      ∀ k, projEd (cs1.foldl mergeStep m1) k = projEd (cs2.foldl mergeStep m2) k := by
  intro cs1
  induction cs1 with
  | nil =>
    intro cs2 m1 m2 hmap h
    cases cs2 with
    | nil => exact h
    | cons c t => simp at hmap
  | cons c1 t1 ih =>
    intro cs2 m1 m2 hmap h
    cases cs2 with
    | nil => simp at hmap
    | cons c2 t2 =>
      simp [keyEd] at hmap
      obtain ⟨⟨hk, he⟩, hmap2⟩ := hmap
      exact ih t2 (mergeStep m1 c1) (mergeStep m2 c2) hmap2 (mergeStep_projEd hk he h)

/-- C2 counterexample: `cexA` and `cexB` are two sightings of "Acme" in
the same edition 1 that differ in the industry segment.  Supplying them
in the two orders yields different final records: the first-supplied
duplicate's industry wins, so the canonical record is NOT independent of
the order of same-edition duplicates. -/
theorem claim_C2_counterexample :
    (lookupA (dedupFold [cexA, cexB]) "acme".data).map CompanyRec.industry
      = some "X".data ∧
    (lookupA (dedupFold [cexB, cexA]) "acme".data).map CompanyRec.industry
      = some "Y".data ∧
    dedupFold [cexA, cexB] ≠ dedupFold [cexB, cexA] :=
  ⟨by decide, by decide, by decide⟩

/-- C2 (amended): the `editions` list and `latest_edition` of every final
record depend only on the per-position identity key and edition number of
the stream, hence are unchanged by permuting same-edition duplicate
listings of a company; the remaining fields (industry, stage, location,
investors, company spelling, latest_date, role_categories) can depend on
the order, as the counterexample shows. -/
theorem claim_C2_amended (cs1 cs2 : List RawListing)
    (h : cs1.map keyEd = cs2.map keyEd) (k : PyStr) :
    projEd (dedupFold cs1) k = projEd (dedupFold cs2) k :=
  foldl_mergeStep_projEd cs1 cs2 [] [] h (fun _ => rfl) k

/-- Witness for C2 (amended) at the swapped same-edition duplicate
streams of the counterexample. -/
theorem claim_C2_witness :
    projEd (dedupFold [cexA, cexB]) "acme".data
      = projEd (dedupFold [cexB, cexA]) "acme".data :=
  claim_C2_amended [cexA, cexB] [cexB, cexA] (by decide) "acme".data

/-- C3 counterexample: the listing `cexEmpty` has an empty company name
(so an empty identity key) and edition 0, yet `deduplicate_companies`
inserts it into the map: there is no validation in the merge step. -/
theorem claim_C3_counterexample :
    lookupA (dedupFold [cexEmpty]) [] = some (mkRec cexEmpty) ∧
    keyOf cexEmpty = [] ∧ (mkRec cexEmpty).latest_edition ≤ 0 :=
  ⟨by decide, by decide, by decide⟩

/-- C3 (amended): the merge step performs no validation at all: every
first sighting of a key — including an empty key or a non-positive
edition — creates a map entry under the lowercased trimmed company name. -/
theorem claim_C3_amended (m : List (PyStr × CompanyRec)) (c : RawListing)
    (h : lookupA m (keyOf c) = none) :
    lookupA (mergeStep m c) (keyOf c) = some (mkRec c) := by
  unfold mergeStep
  split
  · rename_i hm
    rw [lookupA_append_of_none h]
    simp [lookupA]
  · rename_i e hm
    rw [h] at hm
    cases hm

/-- Witness for C3 (amended): the invalid listing `cexEmpty` is inserted
into the empty map. -/
theorem claim_C3_witness :
    lookupA (mergeStep [] cexEmpty) (keyOf cexEmpty) = some (mkRec cexEmpty) :=
  claim_C3_amended [] cexEmpty rfl

/-!  Lemmas about ASCII case mapping and `is_valid_location`. -/

theorem upChar_eq_cases (c : Char) : upChar c = c ∨ (c, upChar c) ∈ upPairs := by
  unfold upChar
  cases hf : upPairs.find? (fun p => p.1 = c) with
  | none => left; rfl
  | some p =>
    have hmem : p ∈ upPairs := List.mem_of_find?_eq_some hf
    have hpred := List.find?_some hf
    simp only [decide_eq_true_eq] at hpred
    right
    show (c, p.2) ∈ upPairs
    rw [← hpred]
    simpa using hmem

theorem upChar_inv {a u : Char} (h : upChar a = u) :
    a = u ∨ a ∈ (upPairs.filter (fun q => q.2 = u)).map Prod.fst := by
  rcases upChar_eq_cases a with hc | hm
  · left; rw [← h, hc]
  · right
    rw [h] at hm
    exact List.mem_map_of_mem Prod.fst (List.mem_filter.mpr ⟨hm, by simp⟩)

theorem upChar_options {a u : Char} (l : Char) (h : upChar a = u)
    (he : (upPairs.filter (fun q => q.2 = u)).map Prod.fst = [l]) : a = u ∨ a = l := by
  rcases upChar_inv h with h1 | h1
  · exact Or.inl h1
  · rw [he] at h1
    simp at h1
    exact Or.inr h1

/-- C7: a location of exactly 2 characters passes `is_valid_location` if
and only if its uppercasing is one of SF, LA, NY, DC, UK; in particular
each allow-list member (in any casing) passes every reject-pattern check,
and every other 2-character string is rejected. -/
theorem claim_C7 (s : PyStr) (h : s.length = 2) :
    isValidLocation s = true ↔ pyUpper s ∈ twoLetterAllow := by
  match s, h with
  | [a, b], _ =>
    constructor
    · intro hv
      by_contra hmem
      unfold isValidLocation at hv
      rw [if_neg (by simp : ¬([a, b] : PyStr).length < 2)] at hv
      by_cases hg : locGarbage (pyLower [a, b]) = true
      · rw [if_pos hg] at hv; cases hv
      · rw [if_neg hg, if_neg (by simp : ¬([a, b] : PyStr).length > 60),
            if_pos ⟨by simp, hmem⟩] at hv
        cases hv
    · intro hmem
      have hub : pyUpper [a, b] = [upChar a, upChar b] := rfl
      rw [hub] at hmem
      have h5 : [upChar a, upChar b] = "SF".data ∨ [upChar a, upChar b] = "LA".data ∨
          [upChar a, upChar b] = "NY".data ∨ [upChar a, upChar b] = "DC".data ∨
          [upChar a, upChar b] = "UK".data := by
        simpa [twoLetterAllow] using hmem
      rcases h5 with h5 | h5 | h5 | h5 | h5
      · rw [show "SF".data = ['S', 'F'] from rfl] at h5
        injection h5 with ha h5
        injection h5 with hb h5
        rcases upChar_options 's' ha (by decide) with h1 | h1 <;>
          rcases upChar_options 'f' hb (by decide) with h2 | h2 <;>
            subst h1 <;> subst h2 <;> decide
      · rw [show "LA".data = ['L', 'A'] from rfl] at h5
        injection h5 with ha h5
        injection h5 with hb h5
        rcases upChar_options 'l' ha (by decide) with h1 | h1 <;>
          rcases upChar_options 'a' hb (by decide) with h2 | h2 <;>
            subst h1 <;> subst h2 <;> decide
      · rw [show "NY".data = ['N', 'Y'] from rfl] at h5
        injection h5 with ha h5
        injection h5 with hb h5
        rcases upChar_options 'n' ha (by decide) with h1 | h1 <;>
          rcases upChar_options 'y' hb (by decide) with h2 | h2 <;>
            subst h1 <;> subst h2 <;> decide
      · rw [show "DC".data = ['D', 'C'] from rfl] at h5
        injection h5 with ha h5
        injection h5 with hb h5
        rcases upChar_options 'd' ha (by decide) with h1 | h1 <;>
          rcases upChar_options 'c' hb (by decide) with h2 | h2 <;>
            subst h1 <;> subst h2 <;> decide
      · rw [show "UK".data = ['U', 'K'] from rfl] at h5
        injection h5 with ha h5
        injection h5 with hb h5
        rcases upChar_options 'u' ha (by decide) with h1 | h1 <;>
          rcases upChar_options 'k' hb (by decide) with h2 | h2 <;>
            subst h1 <;> subst h2 <;> decide

/-- Witness for C7 at the 2-letter string "LA". -/
theorem claim_C7_witness :
    isValidLocation "LA".data = true ↔ pyUpper "LA".data ∈ twoLetterAllow :=
  claim_C7 "LA".data (by decide)

/-!  Lemmas about `normalize_location`. -/

theorem classifyPart_mem {pl t : PyStr} (h : classifyPart pl = some t) :
    t ∈ locationTags := by
  unfold classifyPart at h
  split at h
  · injection h with h
    rw [← h]
    exact List.mem_cons_self _ _
  · split at h
    · cases h
    · split at h
      · injection h with h
        rw [← h]
        exact List.mem_cons_self _ _
      · split at h
        · injection h with h
          rw [← h]
          exact List.mem_cons_self _ _
        · split at h
          · rename_i e hf
            injection h with h
            rw [← h]
            exact List.mem_cons_of_mem _
              (List.mem_map_of_mem Prod.snd (List.mem_of_find?_eq_some hf))
          · cases h

theorem processPart_mem {p t : PyStr} (h : processPart p = some t) :
    t ∈ locationTags := by
  simp only [processPart] at h
  split at h
  · cases h
  · exact classifyPart_mem h

theorem mem_filterMap_processPart {L : List PyStr} {t : PyStr}
    (h : t ∈ L.filterMap processPart) : t ∈ locationTags := by
  rcases List.mem_filterMap.mp h with ⟨p, _, hp⟩
  exact processPart_mem hp

theorem uniqueParts_not_mem_seen :
    ∀ (l seen : List PyStr) (x : PyStr), x ∈ uniqueParts l seen → x ∉ seen := by
  intro l
  induction l with
  | nil => intro seen x hx; simp [uniqueParts] at hx
  | cons p t ih =>
    intro seen x hx
    unfold uniqueParts at hx
    split at hx
    · rename_i hc
      rcases List.mem_cons.mp hx with hx1 | hx2
      · rw [hx1]; exact hc.2
      · intro hs
        exact (ih (p :: seen) x hx2) (List.mem_cons_of_mem _ hs)
    · exact ih seen x hx

theorem uniqueParts_nodup : ∀ (l seen : List PyStr), (uniqueParts l seen).Nodup := by
  intro l
  induction l with
  | nil => intro seen; simp [uniqueParts]
  | cons p t ih =>
    intro seen
    unfold uniqueParts
    split
    · refine List.nodup_cons.mpr ⟨?_, ih _⟩
      intro hmem
      exact (uniqueParts_not_mem_seen t (p :: seen) p hmem) (List.mem_cons_self _ _)
    · exact ih seen

theorem uniqueParts_sub :
    ∀ (l seen : List PyStr) (x : PyStr), x ∈ uniqueParts l seen → x ∈ l := by
  intro l
  induction l with
  | nil => intro seen x hx; simp [uniqueParts] at hx
  | cons p t ih =>
    intro seen x hx
    unfold uniqueParts at hx
    split at hx
    · rcases List.mem_cons.mp hx with hx1 | hx2
      · rw [hx1]; exact List.mem_cons_self _ _
      · exact List.mem_cons_of_mem _ (ih _ x hx2)
    · exact List.mem_cons_of_mem _ (ih _ x hx)

theorem uniqueParts_elt_ne_nil :
    ∀ (l seen : List PyStr) (x : PyStr), x ∈ uniqueParts l seen → x ≠ [] := by
  intro l
  induction l with
  | nil => intro seen x hx; simp [uniqueParts] at hx
  | cons p t ih =>
    intro seen x hx
    unfold uniqueParts at hx
    split at hx
    · rename_i hc
      rcases List.mem_cons.mp hx with hx1 | hx2
      · rw [hx1]; exact hc.1
      · exact ih _ x hx2
    · exact ih _ x hx

theorem joinSep_ne_nil {sep : PyStr} {l : List PyStr} (hl : l ≠ [])
    (helt : ∀ x ∈ l, x ≠ []) : joinSep sep l ≠ [] := by
  cases l with
  | nil => exact absurd rfl hl
  | cons x xs =>
    cases xs with
    | nil => exact helt x (List.mem_cons_self _ _)
    | cons y ys =>
      have hx := helt x (List.mem_cons_self _ _)
      simp only [joinSep, ne_eq, List.append_assoc, List.append_eq_nil]
      intro hc
      exact hx hc.1

theorem normalizeLocation_cases (s : PyStr) (hs : s ≠ []) :
    normalizeLocation s = "Remote".data ∨
    ∃ parts : List PyStr, parts ≠ [] ∧ parts.Nodup ∧
      (∀ t ∈ parts, t ∈ locationTags) ∧ (∀ t ∈ parts, t ≠ []) ∧
      normalizeLocation s = joinSep " / ".data parts := by
  unfold normalizeLocation
  rw [if_neg hs]
  dsimp only
  split
  · exact Or.inl rfl
  · rename_i hne
    right
    refine ⟨_, hne, uniqueParts_nodup _ _, ?_, ?_, rfl⟩
    · intro t ht
      exact mem_filterMap_processPart (uniqueParts_sub _ _ _ ht)
    · intro t ht
      exact uniqueParts_elt_ne_nil _ _ _ ht

/-- C5: for every non-empty location string, `normalize_location` returns
either the single tag "Remote" or a " / "-join of a non-empty duplicate-free
list of tags, every one of which belongs to the closed gazetteer output
vocabulary (`locationTags`, i.e. "Remote" plus the canonical hub tags):
unknown parts are dropped, and if nothing survives the result is "Remote",
never the empty string. -/
theorem claim_C5 (s : PyStr) (hs : s ≠ []) :
    normalizeLocation s = "Remote".data ∨
    ∃ parts : List PyStr, parts ≠ [] ∧ parts.Nodup ∧
      (∀ t ∈ parts, t ∈ locationTags) ∧
      normalizeLocation s = joinSep " / ".data parts := by
  rcases normalizeLocation_cases s hs with h | ⟨parts, h1, h2, h3, _, h5⟩
  · exact Or.inl h
  · exact Or.inr ⟨parts, h1, h2, h3, h5⟩

/-- Witness for C5 at the location "Palo Alto / Wherever". -/
theorem claim_C5_witness :
    normalizeLocation "Palo Alto / Wherever".data = "Remote".data ∨
    ∃ parts : List PyStr, parts ≠ [] ∧ parts.Nodup ∧
      (∀ t ∈ parts, t ∈ locationTags) ∧
      normalizeLocation "Palo Alto / Wherever".data = joinSep " / ".data parts :=
  claim_C5 "Palo Alto / Wherever".data (by decide)

/-- C10: `normalize_location` maps the empty string to itself, bypassing
the "Remote" fallback; the never-empty guarantee holds exactly under the
precondition that the input is non-empty. -/
theorem claim_C10 :
    normalizeLocation [] = [] ∧ ∀ s : PyStr, s ≠ [] → normalizeLocation s ≠ [] := by
  constructor
  · rfl
  · intro s hs
    rcases normalizeLocation_cases s hs with h | ⟨parts, h1, _, _, h4, h5⟩
    · rw [h]; decide
    · rw [h5]; exact joinSep_ne_nil h1 h4

/-- Witness for C10: a non-empty unknown location normalizes to a
non-empty result. -/
theorem claim_C10_witness : normalizeLocation "q".data ≠ [] :=
  claim_C10.2 "q".data (by decide)

/-!  Lemmas for idempotence of `normalize_location` on joined tags. -/

theorem headIsWs_append {a b : PyStr} (ha : a ≠ []) : headIsWs (a ++ b) = headIsWs a := by
  cases a with
  | nil => exact absurd rfl ha
  | cons c t => rfl

theorem lastIsWs_append {a b : PyStr} (hb : b ≠ []) : lastIsWs (a ++ b) = lastIsWs b := by
  unfold lastIsWs
  rw [List.reverse_append]
  exact headIsWs_append (by simpa using hb)

theorem lastIsWs_cons {c : Char} {t : PyStr} (ht : t ≠ []) :
    lastIsWs (c :: t) = lastIsWs t := by
  have : c :: t = [c] ++ t := rfl
  rw [this, lastIsWs_append ht]

theorem noWsRun_tail {c : Char} {t : PyStr} (h : noWsRun (c :: t) = true) :
    noWsRun t = true := by
  cases t with
  | nil => rfl
  | cons d t2 =>
    unfold noWsRun at h
    simp only [Bool.and_eq_true] at h
    exact h.2

theorem noWsRun_head {c : Char} {t : PyStr} (h : noWsRun (c :: t) = true) :
    isBadWs c = false ∧ (isPySpace c = true → headIsWs t = false) := by
  cases t with
  | nil =>
    unfold noWsRun at h
    simp only [Bool.not_eq_true'] at h
    exact ⟨h, fun _ => rfl⟩
  | cons d t2 =>
    unfold noWsRun at h
    simp only [Bool.and_eq_true, Bool.not_eq_true'] at h
    refine ⟨h.1.1, fun hc => ?_⟩
    have h2 := h.1.2
    rw [hc] at h2
    simpa [headIsWs] using h2

theorem noWsRun_append {a b : PyStr} (ha : noWsRun a = true) (hb : noWsRun b = true)
    (hj : lastIsWs a = true → headIsWs b = false) : noWsRun (a ++ b) = true := by
  induction a with
  | nil => simpa using hb
  | cons c t ih =>
    have hrt : noWsRun t = true := noWsRun_tail ha
    obtain ⟨hbad, hnext⟩ := noWsRun_head ha
    cases t with
    | nil =>
      cases b with
      | nil => simpa using ha
      | cons d bs =>
        show noWsRun (c :: d :: bs) = true
        have hmid : (isPySpace c && isPySpace d) = false := by
          by_cases hcw : isPySpace c = true
          · have hd := hj (by simpa [lastIsWs, headIsWs] using hcw)
            simp only [headIsWs] at hd
            simp [hcw, hd]
          · simp only [Bool.not_eq_true] at hcw
            simp [hcw]
        unfold noWsRun
        simp only [Bool.and_eq_true, Bool.not_eq_true']
        exact ⟨⟨hbad, hmid⟩, hb⟩
    | cons d t2 =>
      have ha2 : isBadWs c = false ∧ (isPySpace c && isPySpace d) = false ∧
          noWsRun (d :: t2) = true := by
        unfold noWsRun at ha
        simp only [Bool.and_eq_true, Bool.not_eq_true'] at ha
        exact ⟨ha.1.1, ha.1.2, ha.2⟩
      have hj2 : lastIsWs (d :: t2) = true → headIsWs b = false := fun hl =>
        hj (by rwa [lastIsWs_cons (by simp)])
      have ih2 : noWsRun ((d :: t2) ++ b) = true := ih ha2.2.2 hj2
      show noWsRun (c :: d :: (t2 ++ b)) = true
      unfold noWsRun
      simp only [Bool.and_eq_true, Bool.not_eq_true']
      exact ⟨⟨ha2.1, ha2.2.1⟩, ih2⟩

theorem collapse_id : ∀ s : PyStr, noWsRun s = true →
    collapseAux false s = s ∧ (headIsWs s = false → collapseAux true s = s) := by
  intro s
  induction s with
  | nil => intro _; exact ⟨rfl, fun _ => rfl⟩
  | cons c t ih =>
    intro h
    obtain ⟨ih1, ih2⟩ := ih (noWsRun_tail h)
    obtain ⟨hbad, hnext⟩ := noWsRun_head h
    constructor
    · unfold collapseAux
      by_cases hc : isPySpace c = true
      · have hceq : c = ' ' := by
          unfold isBadWs at hbad
          rw [hc] at hbad
          simpa using hbad
        rw [if_pos hc, ih2 (hnext hc), hceq]
        simp
      · simp only [Bool.not_eq_true] at hc
        rw [if_neg (by simp [hc]), ih1]
    · intro hh
      simp only [headIsWs] at hh
      unfold collapseAux
      rw [if_neg (by simp [hh]), ih1]

theorem joinSep_cons {sep t : PyStr} {rest : List PyStr} (hr : rest ≠ []) :
    joinSep sep (t :: rest) = t ++ sep ++ joinSep sep rest := by
  cases rest with
  | nil => exact absurd rfl hr
  | cons y ys => rfl

theorem joinSep_eq_append (sep t : PyStr) (rest : List PyStr) :
    ∃ X, joinSep sep (t :: rest) = t ++ X := by
  cases rest with
  | nil => exact ⟨[], by simp [joinSep]⟩
  | cons y ys => exact ⟨sep ++ joinSep sep (y :: ys), by simp [joinSep]⟩

theorem joinSep_head {sep t : PyStr} {rest : List PyStr} {c : Char} {r : PyStr}
    (ht : t ≠ []) (h : joinSep sep (t :: rest) = c :: r) : ∃ r2, t = c :: r2 := by
  obtain ⟨X, hX⟩ := joinSep_eq_append sep t rest
  rw [hX] at h
  cases t with
  | nil => exact absurd rfl ht
  | cons c0 t0 =>
    simp only [List.cons_append] at h
    injection h with h1 _
    exact ⟨t0, by rw [h1]⟩

theorem joinSep_last {sep : PyStr} : ∀ (l : List PyStr), (∀ x ∈ l, x ≠ []) →
    ∀ c r, (joinSep sep l).reverse = c :: r → ∃ u ru, u ∈ l ∧ u.reverse = c :: ru := by
  intro l
  induction l with
  | nil => intro _ c r h; cases h
  | cons t rest ih =>
    intro helt c r h
    cases rest with
    | nil => exact ⟨t, r, List.mem_cons_self _ _, h⟩
    | cons y ys =>
      rw [joinSep_cons (by simp)] at h
      rw [List.reverse_append] at h
      have hjoin_ne : joinSep sep (y :: ys) ≠ [] :=
        joinSep_ne_nil (by simp) (fun x hx => helt x (List.mem_cons_of_mem _ hx))
      cases hrev : (joinSep sep (y :: ys)).reverse with
      | nil => exact absurd (by simpa using hrev) hjoin_ne
      | cons c0 r0 =>
        rw [hrev] at h
        simp only [List.cons_append] at h
        injection h with h1 _
        obtain ⟨u, ru, hu, hur⟩ :=
          ih (fun x hx => helt x (List.mem_cons_of_mem _ hx)) c0 r0 hrev
        exact ⟨u, ru, List.mem_cons_of_mem _ hu, by rw [hur, h1]⟩

theorem dropWhile_eq_self_of {p : Char → Bool} {s : PyStr}
    (h : ∀ c r, s = c :: r → p c = false) : s.dropWhile p = s := by
  cases s with
  | nil => rfl
  | cons c t => simp [List.dropWhile, h c t rfl]

theorem dropTrail_eq_self {p : Char → Bool} {s : PyStr}
    (h : ∀ c r, s.reverse = c :: r → p c = false) : dropTrail p s = s := by
  unfold dropTrail
  rw [dropWhile_eq_self_of h, List.reverse_reverse]

theorem pyStrip_eq_self {s : PyStr}
    (h1 : ∀ c r, s = c :: r → isPySpace c = false)
    (h2 : ∀ c r, s.reverse = c :: r → isPySpace c = false) : pyStrip s = s := by
  unfold pyStrip
  rw [dropWhile_eq_self_of h1]
  exact dropTrail_eq_self h2

theorem trimSlashWs_eq_self {s : PyStr}
    (h1 : ∀ c r, s = c :: r → isSlashWs c = false)
    (h2 : ∀ c r, s.reverse = c :: r → isSlashWs c = false) : trimSlashWs s = s := by
  unfold trimSlashWs
  rw [dropWhile_eq_self_of h1]
  exact dropTrail_eq_self h2

theorem dropTrailingDot_eq_self {s : PyStr}
    (h : ∀ r, s.reverse ≠ '.' :: r) : dropTrailingDot s = s := by
  unfold dropTrailingDot
  split
  · rename_i r heq
    exact absurd heq (h r)
  · rfl

theorem dropTrailingComma_eq_self {s : PyStr}
    (hw : ∀ c r, s.reverse = c :: r → isPySpace c = false)
    (hc : ∀ r, s.reverse ≠ ',' :: r) : dropTrailingComma s = s := by
  unfold dropTrailingComma
  rw [dropWhile_eq_self_of hw]
  split
  · rename_i r heq
    exact absurd heq (hc r)
  · rfl

theorem tagOk_unpack {t : PyStr} (h : tagOk t = true) :
    t ≠ [] ∧ noWsRun t = true ∧ headIsWs t = false ∧ lastOk t = true ∧
      t.contains '/' = false := by
  unfold tagOk at h
  simp only [Bool.and_eq_true, Bool.not_eq_true'] at h
  refine ⟨?_, h.1.1.1.2, h.1.1.2, h.1.2, h.2⟩
  intro heq
  rw [heq] at h
  simp at h

theorem lastOk_unpack {t : PyStr} (h : lastOk t = true) :
    ∀ c r, t.reverse = c :: r →
      isPySpace c = false ∧ c ≠ '.' ∧ c ≠ ',' ∧ c ≠ '/' := by
  intro c r heq
  unfold lastOk at h
  rw [heq] at h
  simp only [Bool.and_eq_true, Bool.not_eq_true', decide_eq_true_eq] at h
  exact ⟨h.1.1.1, h.1.1.2, h.1.2, h.2⟩

theorem contains_false_not_mem {t : PyStr} {c : Char} (h : t.contains c = false) :
    c ∉ t := by
  simp at h
  exact h

theorem headIsWs_false_head {t : PyStr} (h : headIsWs t = false) :
    ∀ c r, t = c :: r → isPySpace c = false := by
  intro c r heq
  subst heq
  simpa [headIsWs] using h

theorem pySplit_no_sep {sep : Char} : ∀ {s : PyStr}, sep ∉ s → pySplit sep s = [s] := by
  intro s
  induction s with
  | nil => intro _; rfl
  | cons c t ih =>
    intro h
    have hc : ¬ c = sep := fun hh => h (by rw [← hh]; exact List.mem_cons_self _ _)
    unfold pySplit
    rw [if_neg hc, ih (fun hm => h (List.mem_cons_of_mem _ hm))]

theorem pySplit_ne_nil (sep : Char) : ∀ s : PyStr, pySplit sep s ≠ [] := by
  intro s
  cases s with
  | nil => simp [pySplit]
  | cons c t =>
    unfold pySplit
    split
    · simp
    · split <;> simp

theorem pySplit_append_sep {sep : Char} {b : PyStr} :
    ∀ {a : PyStr}, sep ∉ a → pySplit sep (a ++ sep :: b) = a :: pySplit sep b := by
  intro a
  induction a with
  | nil =>
    intro _
    show pySplit sep (sep :: b) = [] :: pySplit sep b
    conv_lhs => unfold pySplit
    rw [if_pos rfl]
  | cons c t ih =>
    intro h
    have hc : ¬ c = sep := fun hh => h (by rw [← hh]; exact List.mem_cons_self _ _)
    show pySplit sep (c :: (t ++ sep :: b)) = (c :: t) :: pySplit sep b
    conv_lhs => unfold pySplit
    rw [if_neg hc, ih (fun hm => h (List.mem_cons_of_mem _ hm))]

theorem pyStrip_cons_space (s : PyStr) : pyStrip (' ' :: s) = pyStrip s := rfl

theorem dropTrail_append_space {t : PyStr}
    (h2 : ∀ c r, t.reverse = c :: r → isPySpace c = false) :
    dropTrail isPySpace (t ++ [' ']) = t := by
  unfold dropTrail
  rw [List.reverse_append]
  rw [show (([' '] : PyStr).reverse ++ t.reverse) = ' ' :: t.reverse from rfl]
  rw [show ((' ' :: t.reverse).dropWhile isPySpace) = t.reverse.dropWhile isPySpace from rfl]
  rw [dropWhile_eq_self_of h2, List.reverse_reverse]

theorem pyStrip_append_space {t : PyStr}
    (h1 : ∀ c r, t = c :: r → isPySpace c = false)
    (h2 : ∀ c r, t.reverse = c :: r → isPySpace c = false) :
    pyStrip (t ++ [' ']) = t := by
  unfold pyStrip
  cases t with
  | nil => rfl
  | cons c t0 =>
    rw [dropWhile_eq_self_of ?hh]
    case hh =>
      intro cc rr hh
      simp only [List.cons_append] at hh
      injection hh with hh1 _
      rw [← hh1]
      exact h1 c t0 rfl
    exact dropTrail_append_space h2

theorem split_join : ∀ (l : List PyStr), l ≠ [] → (∀ t ∈ l, tagOk t = true) →
    List.map pyStrip (pySplit '/' (joinSep " / ".data l)) = l := by
  intro l
  induction l with
  | nil => intro h; exact absurd rfl h
  | cons t rest ih =>
    intro _ hok
    obtain ⟨htne, _, hth, htl, htc⟩ := tagOk_unpack (hok t (List.mem_cons_self _ _))
    have hhead := headIsWs_false_head hth
    have hlast : ∀ c r, t.reverse = c :: r → isPySpace c = false :=
      fun c r hcr => (lastOk_unpack htl c r hcr).1
    have hnm : '/' ∉ t := contains_false_not_mem htc
    cases rest with
    | nil =>
      show List.map pyStrip (pySplit '/' t) = [t]
      rw [pySplit_no_sep hnm]
      show [pyStrip t] = [t]
      rw [pyStrip_eq_self hhead hlast]
    | cons y ys =>
      have hshape : joinSep " / ".data (t :: y :: ys)
          = (t ++ [' ']) ++ '/' :: (' ' :: joinSep " / ".data (y :: ys)) := by
        rw [joinSep_cons (by simp)]
        rw [show " / ".data = [' ', '/', ' '] from rfl]
        simp [List.append_assoc]
      rw [hshape]
      have hnosep : '/' ∉ t ++ [' '] := by
        intro hm
        rcases List.mem_append.mp hm with hm | hm
        · exact hnm hm
        · simp at hm
      rw [pySplit_append_sep hnosep]
      have hJ := ih (by simp) (fun x hx => hok x (List.mem_cons_of_mem _ hx))
      cases hsp : pySplit '/' (joinSep " / ".data (y :: ys)) with
      | nil => exact absurd hsp (pySplit_ne_nil _ _)
      | cons s ss =>
        have hstep : pySplit '/' (' ' :: joinSep " / ".data (y :: ys)) = (' ' :: s) :: ss := by
          unfold pySplit
          rw [if_neg (by decide), hsp]
        rw [hstep]
        simp only [List.map_cons]
        rw [pyStrip_append_space hhead hlast, pyStrip_cons_space]
        rw [hsp] at hJ
        simp only [List.map_cons] at hJ
        rw [show pyStrip s :: List.map pyStrip ss = y :: ys from hJ]

theorem lastOk_lastIsWs {t : PyStr} (h : lastOk t = true) : lastIsWs t = false := by
  unfold lastIsWs
  cases hrev : t.reverse with
  | nil => rfl
  | cons c r =>
    show isPySpace c = false
    exact (lastOk_unpack h c r hrev).1

theorem headIsWs_joinSep {l : List PyStr} (hok : ∀ x ∈ l, tagOk x = true) :
    headIsWs (joinSep " / ".data l) = false := by
  cases l with
  | nil => rfl
  | cons t rest =>
    cases hJ : joinSep " / ".data (t :: rest) with
    | nil => rfl
    | cons c r =>
      obtain ⟨htne, _, hth, _, _⟩ := tagOk_unpack (hok t (List.mem_cons_self _ _))
      obtain ⟨r2, ht⟩ := joinSep_head htne hJ
      show isPySpace c = false
      exact headIsWs_false_head hth c r2 ht

theorem noWsRun_joinSep : ∀ (l : List PyStr), (∀ x ∈ l, tagOk x = true) → l ≠ [] →
    noWsRun (joinSep " / ".data l) = true := by
  intro l
  induction l with
  | nil => intro _ h; exact absurd rfl h
  | cons t rest ih =>
    intro hok _
    obtain ⟨htne, htn, hth, htl, htc⟩ := tagOk_unpack (hok t (List.mem_cons_self _ _))
    cases rest with
    | nil => exact htn
    | cons y ys =>
      rw [joinSep_cons (by simp), List.append_assoc]
      have hrest : ∀ x ∈ y :: ys, tagOk x = true :=
        fun x hx => hok x (List.mem_cons_of_mem _ hx)
      have hJ : noWsRun (joinSep " / ".data (y :: ys)) = true := ih hrest (by simp)
      have hsepJ : noWsRun (" / ".data ++ joinSep " / ".data (y :: ys)) = true := by
        apply noWsRun_append (by decide) hJ
        intro _
        exact headIsWs_joinSep hrest
      apply noWsRun_append htn hsepJ
      intro hlw
      rw [lastOk_lastIsWs htl] at hlw
      cases hlw

theorem filterMap_id_of : ∀ {l : List PyStr}, (∀ t ∈ l, processPart t = some t) →
    l.filterMap processPart = l := by
  intro l
  induction l with
  | nil => intro _; rfl
  | cons p t ih =>
    intro h
    rw [List.filterMap_cons, h p (List.mem_cons_self _ _)]
    rw [ih (fun x hx => h x (List.mem_cons_of_mem _ hx))]

theorem uniqueParts_id : ∀ (l seen : List PyStr), l.Nodup → (∀ x ∈ l, x ≠ []) →
    (∀ x ∈ l, x ∉ seen) → uniqueParts l seen = l := by
  intro l
  induction l with
  | nil => intro seen _ _ _; rfl
  | cons p t ih =>
    intro seen hnd helt hseen
    unfold uniqueParts
    rw [if_pos ⟨helt p (List.mem_cons_self _ _), hseen p (List.mem_cons_self _ _)⟩]
    congr 1
    apply ih
    · exact (List.nodup_cons.mp hnd).2
    · exact fun x hx => helt x (List.mem_cons_of_mem _ hx)
    · intro x hx hm
      rcases List.mem_cons.mp hm with h1 | h1
      · exact (List.nodup_cons.mp hnd).1 (h1 ▸ hx)
      · exact hseen x (List.mem_cons_of_mem _ hx) h1

theorem collapseWs_eq_self {s : PyStr} (h : noWsRun s = true) : collapseWs s = s :=
  (collapse_id s h).1

theorem normalizeLocation_idem (l : List PyStr) (hl : l ≠ []) (hnd : l.Nodup)
    (hok : ∀ t ∈ l, tagOk t = true) (hpp : ∀ t ∈ l, processPart t = some t) :
    normalizeLocation (joinSep " / ".data l) = joinSep " / ".data l := by
  set j : PyStr := joinSep " / ".data l with hj
  have helt : ∀ x ∈ l, x ≠ [] := fun x hx => (tagOk_unpack (hok x hx)).1
  have hjne : j ≠ [] := by rw [hj]; exact joinSep_ne_nil hl helt
  have hhead : ∀ c r, j = c :: r → isSlashWs c = false := by
    intro c r heq
    rw [hj] at heq
    cases l with
    | nil => exact absurd rfl hl
    | cons t rest =>
      obtain ⟨htne, _, hth, _, htc⟩ := tagOk_unpack (hok t (List.mem_cons_self _ _))
      obtain ⟨r2, ht⟩ := joinSep_head htne heq
      have hws := headIsWs_false_head hth c r2 ht
      have hslash : c ≠ '/' := by
        intro hcc
        exact contains_false_not_mem htc (by rw [← hcc, ht]; exact List.mem_cons_self _ _)
      simp [isSlashWs, hws, hslash]
  have hlast : ∀ c r, j.reverse = c :: r →
      isPySpace c = false ∧ c ≠ '.' ∧ c ≠ ',' ∧ c ≠ '/' := by
    intro c r heq
    rw [hj] at heq
    obtain ⟨u, ru, hu, hur⟩ := joinSep_last l helt c r heq
    exact lastOk_unpack (tagOk_unpack (hok u hu)).2.2.2.1 c ru hur
  have hnws : noWsRun j = true := by rw [hj]; exact noWsRun_joinSep l hok hl
  have e1 : pyStrip j = j := pyStrip_eq_self
    (fun c r hcr => by
      have hsw := hhead c r hcr
      simp [isSlashWs] at hsw
      exact hsw.2)
    (fun c r hcr => (hlast c r hcr).1)
  have e2 : collapseWs j = j := collapseWs_eq_self hnws
  have e3 : trimSlashWs j = j := trimSlashWs_eq_self hhead
    (fun c r hcr => by
      obtain ⟨hw, _, _, hs⟩ := hlast c r hcr
      simp [isSlashWs, hw, hs])
  have e4 : dropTrailingDot j = j := dropTrailingDot_eq_self (by
    intro r heq
    obtain ⟨_, hd, _, _⟩ := hlast '.' r heq
    exact hd rfl)
  have e5 : dropTrailingComma j = j := dropTrailingComma_eq_self
    (fun c r hcr => (hlast c r hcr).1)
    (by
      intro r heq
      obtain ⟨_, _, hcm, _⟩ := hlast ',' r heq
      exact hcm rfl)
  have e6 : List.map pyStrip (pySplit '/' j) = l := by
    rw [hj]
    exact split_join l hl hok
  have e7 : l.filterMap processPart = l := filterMap_id_of hpp
  have e8 : uniqueParts l [] = l := uniqueParts_id l [] hnd helt (by simp)
  show normalizeLocation j = j
  unfold normalizeLocation
  rw [if_neg hjne]
  dsimp only
  rw [e1, e2, e3, e4, e5, e6, e7, e8, if_neg hl]

theorem locationTags_ok : ∀ t ∈ locationTags, tagOk t = true := by decide

theorem locationTags_processPart : ∀ t ∈ locationTags, processPart t = some t := by decide

/-- C8: the normalizers are idempotent on their canonical outputs: every
canonical industry taxonomy tag is a fixed point of `normalize_industry`,
and every " / "-join of a duplicate-free non-empty list of gazetteer
output tags (covering single tags, "Remote", and joined combinations) is
a fixed point of `normalize_location`. -/
theorem claim_C8 :
    (∀ v ∈ canonicalIndustryTags, normalizeIndustry v = some v) ∧
    (∀ l : List PyStr, l ≠ [] → l.Nodup → (∀ t ∈ l, t ∈ locationTags) →
      normalizeLocation (joinSep " / ".data l) = joinSep " / ".data l) := by
  constructor
  · decide
  · intro l hl hnd hmem
    exact normalizeLocation_idem l hl hnd
      (fun t ht => locationTags_ok t (hmem t ht))
      (fun t ht => locationTags_processPart t (hmem t ht))

/-- Witness for C8 at the tag "Healthcare" and the joined location
"SF / Remote". -/
theorem claim_C8_witness :
    normalizeIndustry "Healthcare".data = some "Healthcare".data ∧
    normalizeLocation (joinSep " / ".data ["SF".data, "Remote".data])
      = joinSep " / ".data ["SF".data, "Remote".data] :=
  ⟨claim_C8.1 "Healthcare".data (by decide),
   claim_C8.2 ["SF".data, "Remote".data] (by decide) (by decide) (by decide)⟩
